import Mathlib

/-!
Verification of the `mon` structured logging package (gosoline).

The Go source is shallowly embedded: Go runtime values that can reach the
field sanitizer `prepareForLog` are modelled by the inductive `GoValue`,
`map[string]interface{}` values by the association structure `GoEntries`
(Go maps hold each key at most once; the claims that depend on it carry the
corresponding `Nodup` hypothesis), struct values by `GoFields` (field name,
exported flag, value) and slices/arrays by `GoList`.  The logger's
side effects (span updates, hook invocations, sink and stderr writes,
process exit, panicking) are modelled as an explicit effect trace.
-/

namespace Mon

mutual

/-- A Go `interface{}` value as seen by the sanitizer `prepareForLog`.
`goError` is a value implementing the `error` interface (carrying its
message), `goNull` the untyped nil interface, `goPtrNil` / `goPtr` a nil
resp. non-nil pointer (or non-nil interface indirection), `goSliceNil` a
nil slice, `goSlice` a non-nil slice and `goArray` an array. -/
inductive GoValue where
  | goError (msg : String)
  | goNull
  | goBool (b : Bool)
  | goInt (n : Int)
  | goString (s : String)
  | goMap (es : GoEntries)
  | goPtrNil
  | goPtr (v : GoValue)
  | goStruct (fs : GoFields)
  | goSliceNil
  | goSlice (xs : GoList)
  | goArray (xs : GoList)

/-- The entries of a Go `map[string]interface{}`. -/
inductive GoEntries where
  | nil
  | cons (k : String) (v : GoValue) (rest : GoEntries)

/-- The fields of a Go struct: name, whether the field is exported
(`reflect.Value.CanInterface`), and its value. -/
inductive GoFields where
  | nil
  | cons (name : String) (exported : Bool) (v : GoValue) (rest : GoFields)

/-- The elements of a Go slice or array. -/
inductive GoList where
  | nil
  | cons (v : GoValue) (rest : GoList)

end

/-- Lookup in a Go map (Go map indexing `m[k]`, `none` for a missing key). -/
def GoEntries.lookup : GoEntries → String → Option GoValue
  | .nil, _ => none
  | .cons k v rest, s => if k = s then some v else rest.lookup s

/-- The key set of a Go map, in entry order. -/
def GoEntries.keys : GoEntries → List String
  | .nil => []
  | .cons k _ rest => k :: rest.keys

/-- Go map assignment `m[k] = v`: replaces the value of an existing key,
otherwise adds the binding. -/
def GoEntries.insert : GoEntries → String → GoValue → GoEntries
  | .nil, k, v => .cons k v .nil
  | .cons k' v' rest, k, v =>
      if k' = k then .cons k v rest else .cons k' v' (rest.insert k v)

/-- Concatenation of two entry sequences. -/
def GoEntries.append : GoEntries → GoEntries → GoEntries
  | .nil, m => m
  | .cons k v rest, m => .cons k v (rest.append m)

/-- `P` holds for every value stored in the map. -/
def GoEntries.All (P : GoValue → Prop) : GoEntries → Prop
  | .nil => True
  | .cons _ v rest => P v ∧ rest.All P

/-- The names of the fields of a struct, in declaration order. -/
def GoFields.names : GoFields → List String
  | .nil => []
  | .cons name _ _ rest => name :: rest.names

/-- The first field with the given name: its exported flag and value. -/
def GoFields.lookupField : GoFields → String → Option (Bool × GoValue)
  | .nil, _ => none
  | .cons name exported v rest, s =>
      if name = s then some (exported, v) else rest.lookupField s

/-- `P` holds for every field value of a struct. -/
def GoFields.All (P : GoValue → Prop) : GoFields → Prop
  | .nil => True
  | .cons _ _ v rest => P v ∧ rest.All P

/-- `P` holds for every element of a slice/array. -/
def GoList.All (P : GoValue → Prop) : GoList → Prop
  | .nil => True
  | .cons v rest => P v ∧ rest.All P

/-! ## Severity levels (source: `const` block and `levels` map) -/

def Trace : String := "trace"

def Debug : String := "debug"

def Info : String := "info"

def Warn : String := "warn"

def Error : String := "error"

def Fatal : String := "fatal"

def Panic : String := "panic"

def ChannelDefault : String := "default"

/-- The `levels` map of the source: the seven registered severity names and
their numeric priorities. -/
def levels : List (String × Nat) :=
  [(Trace, 0), (Debug, 1), (Info, 2), (Warn, 3), (Error, 4), (Fatal, 5), (Panic, 6)]

/-- Association-list lookup modelling Go map access on `levels`. -/
def lookupLevel : List (String × Nat) → String → Option Nat
  | [], _ => none
  | (k, p) :: rest, s => if k = s then some p else lookupLevel rest s

/-- `levelPriority` of the source: `levels[level]`.  Go map indexing yields
the zero value `0` when the key is missing, modelled by `Option.getD 0`. -/
def levelPriority (level : String) : Nat :=
  (lookupLevel levels level).getD 0

/-! ## The field sanitizer (source: `prepareForLog`, `mergeMapStringInterface`)

`insertAllSanitized acc m` models one `for k, v := range m` loop of
`mergeMapStringInterface` that executes `newMap[k] = prepareForLog(v)`
starting from the map `acc`; `prepStructFields` models the field loop of the
`reflect.Struct` case and `prepListElems` the element loop of the
`reflect.Slice`/`reflect.Array` case. -/

mutual

/-- `prepareForLog` of the source, rule for rule:
an `error` value becomes its message string; a `map[string]interface{}`
becomes `mergeMapStringInterface(t, nil)` (written here as its first range
loop, see `prepareForLog_goMap_eq_merge`); a nil pointer/interface becomes
nil; a non-nil pointer is sanitized as its pointee; a struct becomes a new
map keyed by field name, skipping non-exported fields; a nil slice becomes
nil while a non-nil slice or an array becomes a new non-nil slice of
sanitized elements; anything else is returned unchanged. -/
def prepareForLog : GoValue → GoValue
  | .goError t => .goString t
  | .goMap t => .goMap (insertAllSanitized .nil t)
  | .goPtrNil => .goNull
  | .goPtr p => prepareForLog p
  | .goStruct fs => .goMap (prepStructFields .nil fs)
  | .goSliceNil => .goNull
  | .goSlice xs => .goSlice (prepListElems xs)
  | .goArray xs => .goSlice (prepListElems xs)
  | .goNull => .goNull
  | .goBool b => .goBool b
  | .goInt n => .goInt n
  | .goString s => .goString s

/-- One `for k, v := range m { newMap[k] = prepareForLog(v) }` loop of
`mergeMapStringInterface`, starting from `acc`. -/
def insertAllSanitized : GoEntries → GoEntries → GoEntries
  | acc, .nil => acc
  | acc, .cons k v rest => insertAllSanitized (acc.insert k (prepareForLog v)) rest

/-- The struct-field loop of `prepareForLog`'s `reflect.Struct` case:
`newMap[name] = prepareForLog(field)` for every exported field. -/
def prepStructFields : GoEntries → GoFields → GoEntries
  | acc, .nil => acc
  | acc, .cons name exported v rest =>
      if exported then prepStructFields (acc.insert name (prepareForLog v)) rest
      else prepStructFields acc rest

/-- The element loop of `prepareForLog`'s slice/array case:
`newArray[i] = prepareForLog(rv.Index(i))`. -/
def prepListElems : GoList → GoList
  | .nil => .nil
  | .cons v rest => .cons (prepareForLog v) (prepListElems rest)

end

/-- `mergeMapStringInterface` of the source: a fresh map is filled from a
sanitizing range loop over `receiver`, then a sanitizing range loop over
`input` (later assignments overwrite earlier ones). -/
def mergeMapStringInterface (receiver input : GoEntries) : GoEntries :=
  insertAllSanitized (insertAllSanitized .nil receiver) input

/-- The `map[string]interface{}` case of the source's `prepareForLog`
literally returns `mergeMapStringInterface(t, nil)`; ranging over the nil
`input` map does nothing, so this agrees with the definition above. -/
theorem prepareForLog_goMap_eq_merge (t : GoEntries) :
    prepareForLog (.goMap t) = .goMap (mergeMapStringInterface t .nil) := rfl

example : prepareForLog (.goMap (.cons "a" (.goError "boom") .nil))
    = .goMap (.cons "a" (.goString "boom") .nil) := rfl

example : prepareForLog (.goSlice .nil) = .goSlice .nil := rfl

example : prepareForLog .goSliceNil = .goNull := rfl

/-! ## Induction principles for the mutual family, one type at a time -/

@[induction_eliminator]
theorem GoEntries.entriesInduction {motive : GoEntries → Prop} (nil : motive .nil)
    (cons : ∀ k v rest, motive rest → motive (.cons k v rest)) : ∀ m, motive m
  | .nil => nil
  | .cons k v rest => cons k v rest (GoEntries.entriesInduction nil cons rest)

@[induction_eliminator]
theorem GoFields.fieldsInduction {motive : GoFields → Prop} (nil : motive .nil)
    (cons : ∀ name exported v rest, motive rest → motive (.cons name exported v rest)) :
    ∀ fs, motive fs
  | .nil => nil
  | .cons name exported v rest => cons name exported v rest (GoFields.fieldsInduction nil cons rest)

@[induction_eliminator]
theorem GoList.listInduction {motive : GoList → Prop} (nil : motive .nil)
    (cons : ∀ v rest, motive rest → motive (.cons v rest)) : ∀ xs, motive xs
  | .nil => nil
  | .cons v rest => cons v rest (GoList.listInduction nil cons rest)

/-! ## Map lemmas -/

theorem GoEntries.lookup_insert (m : GoEntries) (k : String) (v : GoValue) (s : String) :
    (m.insert k v).lookup s = if k = s then some v else m.lookup s := by
  induction m with
  | nil => simp [GoEntries.insert, GoEntries.lookup]
  | cons k' v' rest ih =>
      by_cases hk : k' = k
      · subst hk
        simp only [GoEntries.insert, if_pos rfl, GoEntries.lookup]
        by_cases hs : k' = s <;> simp [hs]
      · simp only [GoEntries.insert, if_neg hk, GoEntries.lookup, ih]
        by_cases hs : k' = s
        · subst hs
          simp [Ne.symm hk]
        · simp [hs]

theorem GoEntries.mem_keys_insert (m : GoEntries) (k : String) (v : GoValue) (s : String) :
    s ∈ (m.insert k v).keys ↔ s ∈ m.keys ∨ s = k := by
  induction m with
  | nil => simp [GoEntries.insert, GoEntries.keys]
  | cons k' v' rest ih =>
      by_cases hk : k' = k
      · subst hk
        simp [GoEntries.insert, GoEntries.keys]
        tauto
      · simp [GoEntries.insert, if_neg hk, GoEntries.keys, ih]
        tauto

theorem GoEntries.keys_insert (m : GoEntries) (k : String) (v : GoValue) :
    (m.insert k v).keys = if k ∈ m.keys then m.keys else m.keys ++ [k] := by
  induction m with
  | nil => simp [GoEntries.insert, GoEntries.keys]
  | cons k' v' rest ih =>
      by_cases hk : k' = k
      · subst hk
        simp [GoEntries.insert, GoEntries.keys]
      · simp only [GoEntries.insert, if_neg hk, GoEntries.keys, ih, List.mem_cons]
        by_cases hm : k ∈ rest.keys
        · simp [hm]
        · simp [hm, Ne.symm hk]

theorem GoEntries.keys_nodup_insert (m : GoEntries) (k : String) (v : GoValue)
    (h : m.keys.Nodup) : (m.insert k v).keys.Nodup := by
  rw [GoEntries.keys_insert]
  by_cases hm : k ∈ m.keys
  · simpa [hm]
  · simpa [hm, List.nodup_append]

theorem GoEntries.All_insert {P : GoValue → Prop} (m : GoEntries) (k : String) (v : GoValue)
    (hm : m.All P) (hv : P v) : (m.insert k v).All P := by
  induction m with
  | nil => exact ⟨hv, trivial⟩
  | cons k' v' rest ih =>
      obtain ⟨h1, h2⟩ := hm
      by_cases hk : k' = k
      · subst hk
        simp only [GoEntries.insert, if_pos rfl, GoEntries.All]
        exact ⟨hv, h2⟩
      · simp only [GoEntries.insert, if_neg hk, GoEntries.All]
        exact ⟨h1, ih h2⟩

theorem GoEntries.insert_of_not_mem (m : GoEntries) (k : String) (v : GoValue)
    (h : k ∉ m.keys) : m.insert k v = m.append (.cons k v .nil) := by
  induction m with
  | nil => rfl
  | cons k' v' rest ih =>
      simp only [GoEntries.keys, List.mem_cons] at h
      push_neg at h
      simp only [GoEntries.insert, if_neg (Ne.symm h.1), GoEntries.append]
      rw [ih h.2]

theorem GoEntries.lookup_eq_none_of_not_mem (m : GoEntries) (s : String)
    (h : s ∉ m.keys) : m.lookup s = none := by
  induction m with
  | nil => rfl
  | cons k v rest ih =>
      simp only [GoEntries.keys, List.mem_cons] at h
      push_neg at h
      simp only [GoEntries.lookup, if_neg (Ne.symm h.1)]
      exact ih h.2

theorem GoEntries.append_nil (m : GoEntries) : m.append .nil = m := by
  induction m with
  | nil => rfl
  | cons k v rest ih => simp only [GoEntries.append, ih]

theorem GoEntries.keys_append (m m' : GoEntries) :
    (m.append m').keys = m.keys ++ m'.keys := by
  induction m with
  | nil => rfl
  | cons k v rest ih => simp only [GoEntries.append, GoEntries.keys, ih, List.cons_append]

theorem GoEntries.append_assoc (a b c : GoEntries) :
    (a.append b).append c = a.append (b.append c) := by
  induction a with
  | nil => rfl
  | cons k v rest ih => simp only [GoEntries.append, ih]

theorem GoFields.lookupField_eq_none_of_not_mem_names (fs : GoFields) (s : String)
    (h : s ∉ fs.names) : fs.lookupField s = none := by
  induction fs with
  | nil => rfl
  | cons name exported v rest ih =>
      simp only [GoFields.names, List.mem_cons] at h
      push_neg at h
      simp only [GoFields.lookupField, if_neg (Ne.symm h.1)]
      exact ih h.2

/-! ## Lemmas about the sanitizing range loops -/

theorem insertAllSanitized_mem_keys (es : GoEntries) : ∀ (acc : GoEntries) (s : String),
    s ∈ (insertAllSanitized acc es).keys ↔ s ∈ acc.keys ∨ s ∈ es.keys := by
  induction es with
  | nil => intro acc s; simp [insertAllSanitized, GoEntries.keys]
  | cons k v rest ih =>
      intro acc s
      simp only [insertAllSanitized, ih, GoEntries.mem_keys_insert, GoEntries.keys,
        List.mem_cons]
      tauto

theorem insertAllSanitized_keys_nodup (es : GoEntries) : ∀ acc : GoEntries,
    acc.keys.Nodup → (insertAllSanitized acc es).keys.Nodup := by
  induction es with
  | nil => intro acc h; exact h
  | cons k v rest ih =>
      intro acc h
      exact ih _ (GoEntries.keys_nodup_insert _ _ _ h)

theorem insertAllSanitized_All {P : GoValue → Prop} (es : GoEntries) : ∀ acc : GoEntries,
    acc.All P → es.All (fun v => P (prepareForLog v)) →
    (insertAllSanitized acc es).All P := by
  induction es with
  | nil => intro acc hacc _; exact hacc
  | cons k v rest ih =>
      intro acc hacc hes
      exact ih _ (GoEntries.All_insert _ _ _ hacc hes.1) hes.2

theorem insertAllSanitized_lookup (es : GoEntries) : ∀ (acc : GoEntries) (s : String),
    es.keys.Nodup →
    (insertAllSanitized acc es).lookup s =
      (match es.lookup s with
       | some v => some (prepareForLog v)
       | none => acc.lookup s) := by
  induction es with
  | nil => intro acc s _; simp [insertAllSanitized, GoEntries.lookup]
  | cons k v rest ih =>
      intro acc s hnd
      simp only [GoEntries.keys, List.nodup_cons] at hnd
      simp only [insertAllSanitized, ih _ _ hnd.2, GoEntries.lookup]
      by_cases hs : k = s
      · subst hs
        rw [GoEntries.lookup_eq_none_of_not_mem rest k hnd.1]
        simp [GoEntries.lookup_insert]
      · simp only [if_neg hs]
        cases hr : rest.lookup s with
        | some w => rfl
        | none => simp [GoEntries.lookup_insert, hs]

theorem insertAllSanitized_fix (es : GoEntries) : ∀ acc : GoEntries,
    es.keys.Nodup → (∀ s ∈ es.keys, s ∉ acc.keys) →
    es.All (fun v => prepareForLog v = v) →
    insertAllSanitized acc es = acc.append es := by
  induction es with
  | nil => intro acc _ _ _; exact (GoEntries.append_nil acc).symm
  | cons k v rest ih =>
      intro acc hnd hdisj hfix
      simp only [GoEntries.keys, List.nodup_cons] at hnd
      have hk : k ∉ acc.keys := hdisj k (by simp [GoEntries.keys])
      simp only [insertAllSanitized, hfix.1, GoEntries.insert_of_not_mem _ _ _ hk]
      rw [ih _ hnd.2 ?_ hfix.2]
      · rw [GoEntries.append_assoc]
        rfl
      · intro s hs
        rw [GoEntries.keys_append]
        simp only [List.mem_append, GoEntries.keys, List.mem_cons, List.not_mem_nil,
          or_false]
        push_neg
        constructor
        · exact hdisj s (by simp [GoEntries.keys, hs])
        · intro hsk
          exact hnd.1 (hsk ▸ hs)

theorem prepStructFields_keys_nodup (fs : GoFields) : ∀ acc : GoEntries,
    acc.keys.Nodup → (prepStructFields acc fs).keys.Nodup := by
  induction fs with
  | nil => intro acc h; exact h
  | cons name exported v rest ih =>
      intro acc h
      cases exported with
      | true => exact ih _ (GoEntries.keys_nodup_insert _ _ _ h)
      | false => exact ih _ h

theorem prepStructFields_All {P : GoValue → Prop} (fs : GoFields) : ∀ acc : GoEntries,
    acc.All P → fs.All (fun v => P (prepareForLog v)) →
    (prepStructFields acc fs).All P := by
  induction fs with
  | nil => intro acc hacc _; exact hacc
  | cons name exported v rest ih =>
      intro acc hacc hfs
      cases exported with
      | true => exact ih _ (GoEntries.All_insert _ _ _ hacc hfs.1) hfs.2
      | false => exact ih _ hacc hfs.2

theorem prepStructFields_lookup (fs : GoFields) : ∀ (acc : GoEntries) (s : String),
    fs.names.Nodup →
    (prepStructFields acc fs).lookup s =
      (match fs.lookupField s with
       | some (true, v) => some (prepareForLog v)
       | some (false, _) => acc.lookup s
       | none => acc.lookup s) := by
  induction fs with
  | nil => intro acc s _; rfl
  | cons name exported v rest ih =>
      intro acc s hnd
      simp only [GoFields.names, List.nodup_cons] at hnd
      cases exported with
      | true =>
          rw [show prepStructFields acc (GoFields.cons name true v rest)
                = prepStructFields (acc.insert name (prepareForLog v)) rest from rfl]
          rw [ih (acc.insert name (prepareForLog v)) s hnd.2]
          by_cases hs : name = s
          · subst hs
            rw [GoFields.lookupField_eq_none_of_not_mem_names rest name hnd.1]
            rw [show (GoFields.cons name true v rest).lookupField name
                  = some (true, v) from by simp [GoFields.lookupField]]
            simp [GoEntries.lookup_insert]
          · rw [show (GoFields.cons name true v rest).lookupField s
                  = rest.lookupField s from by simp [GoFields.lookupField, hs]]
            cases hr : rest.lookupField s with
            | some p =>
                rcases p with ⟨b, w⟩
                cases b
                · simp [hr, GoEntries.lookup_insert, hs]
                · simp [hr]
            | none => simp [hr, GoEntries.lookup_insert, hs]
      | false =>
          rw [show prepStructFields acc (GoFields.cons name false v rest)
                = prepStructFields acc rest from rfl]
          rw [ih acc s hnd.2]
          by_cases hs : name = s
          · subst hs
            rw [GoFields.lookupField_eq_none_of_not_mem_names rest name hnd.1]
            rw [show (GoFields.cons name false v rest).lookupField name
                  = some (false, v) from by simp [GoFields.lookupField]]
          · rw [show (GoFields.cons name false v rest).lookupField s
                  = rest.lookupField s from by simp [GoFields.lookupField, hs]]

theorem prepListElems_idem_of_All (xs : GoList)
    (h : xs.All (fun v => prepareForLog (prepareForLog v) = prepareForLog v)) :
    prepListElems (prepListElems xs) = prepListElems xs := by
  induction xs with
  | nil => rfl
  | cons v rest ih =>
      simp only [prepListElems, h.1, ih h.2]

/-! ## Idempotence of the sanitizer -/

mutual

theorem prepareForLog_prepareForLog : ∀ v : GoValue,
    prepareForLog (prepareForLog v) = prepareForLog v
  | .goError _ => rfl
  | .goNull => rfl
  | .goBool _ => rfl
  | .goInt _ => rfl
  | .goString _ => rfl
  | .goPtrNil => rfl
  | .goPtr p => prepareForLog_prepareForLog p
  | .goMap es => by
      have hall : (insertAllSanitized .nil es).All (fun v => prepareForLog v = v) :=
        insertAllSanitized_All es .nil trivial (entries_prep_idem es)
      have hnd : (insertAllSanitized .nil es).keys.Nodup :=
        insertAllSanitized_keys_nodup es .nil (by simp [GoEntries.keys])
      show GoValue.goMap (insertAllSanitized .nil (insertAllSanitized .nil es))
          = GoValue.goMap (insertAllSanitized .nil es)
      rw [insertAllSanitized_fix _ _ hnd (by intro s _; simp [GoEntries.keys]) hall]
      rfl
  | .goStruct fs => by
      have hall : (prepStructFields .nil fs).All (fun v => prepareForLog v = v) :=
        prepStructFields_All fs .nil trivial (fields_prep_idem fs)
      have hnd : (prepStructFields .nil fs).keys.Nodup :=
        prepStructFields_keys_nodup fs .nil (by simp [GoEntries.keys])
      show GoValue.goMap (insertAllSanitized .nil (prepStructFields .nil fs))
          = GoValue.goMap (prepStructFields .nil fs)
      rw [insertAllSanitized_fix _ _ hnd (by intro s _; simp [GoEntries.keys]) hall]
      rfl
  | .goSliceNil => rfl
  | .goSlice xs => by
      show GoValue.goSlice (prepListElems (prepListElems xs))
          = GoValue.goSlice (prepListElems xs)
      rw [prepListElems_idem_of_All xs (list_prep_idem xs)]
  | .goArray xs => by
      show GoValue.goSlice (prepListElems (prepListElems xs))
          = GoValue.goSlice (prepListElems xs)
      rw [prepListElems_idem_of_All xs (list_prep_idem xs)]

theorem entries_prep_idem : ∀ es : GoEntries,
    es.All (fun v => prepareForLog (prepareForLog v) = prepareForLog v)
  | .nil => trivial
  | .cons _ v rest => ⟨prepareForLog_prepareForLog v, entries_prep_idem rest⟩

theorem fields_prep_idem : ∀ fs : GoFields,
    fs.All (fun v => prepareForLog (prepareForLog v) = prepareForLog v)
  | .nil => trivial
  | .cons _ _ v rest => ⟨prepareForLog_prepareForLog v, fields_prep_idem rest⟩

theorem list_prep_idem : ∀ xs : GoList,
    xs.All (fun v => prepareForLog (prepareForLog v) = prepareForLog v)
  | .nil => trivial
  | .cons v rest => ⟨prepareForLog_prepareForLog v, list_prep_idem rest⟩

end

/-! ## Claims C1 to C3 -/

/-- C1: for all maps `m1`, `m2` (Go maps, hence with no duplicate keys),
`mergeMapStringInterface m1 m2` has exactly the keys of `m1` together with
those of `m2`; every key present in `m2` (also a key shared with `m1`) maps
to the sanitized form of `m2`'s value, and a key only in `m1` maps to the
sanitized form of `m1`'s value. -/
theorem mergeMapStringInterface_spec (m1 m2 : GoEntries)
    (h1 : m1.keys.Nodup) (h2 : m2.keys.Nodup) :
    (∀ s, s ∈ (mergeMapStringInterface m1 m2).keys ↔ s ∈ m1.keys ∨ s ∈ m2.keys)
    ∧ (∀ s v, m2.lookup s = some v →
        (mergeMapStringInterface m1 m2).lookup s = some (prepareForLog v))
    ∧ (∀ s v, s ∉ m2.keys → m1.lookup s = some v →
        (mergeMapStringInterface m1 m2).lookup s = some (prepareForLog v)) := by
  refine ⟨?_, ?_, ?_⟩
  · intro s
    rw [mergeMapStringInterface, insertAllSanitized_mem_keys,
      insertAllSanitized_mem_keys]
    simp [GoEntries.keys]
  · intro s v hv
    rw [mergeMapStringInterface, insertAllSanitized_lookup _ _ _ h2, hv]
  · intro s v hs hv
    rw [mergeMapStringInterface, insertAllSanitized_lookup _ _ _ h2,
      GoEntries.lookup_eq_none_of_not_mem _ _ hs]
    show (insertAllSanitized .nil m1).lookup s = some (prepareForLog v)
    rw [insertAllSanitized_lookup _ _ _ h1, hv]

def mergeWitnessM1 : GoEntries := .cons "a" (.goInt 1) (.cons "b" (.goError "old") .nil)

def mergeWitnessM2 : GoEntries := .cons "b" (.goInt 2) .nil

theorem mergeMapStringInterface_spec_witness :
    mergeWitnessM1.keys.Nodup ∧ mergeWitnessM2.keys.Nodup
      ∧ (mergeMapStringInterface mergeWitnessM1 mergeWitnessM2).lookup "b"
          = some (prepareForLog (GoValue.goInt 2))
      ∧ (mergeMapStringInterface mergeWitnessM1 mergeWitnessM2).lookup "a"
          = some (prepareForLog (GoValue.goInt 1)) :=
  ⟨by decide, by decide,
   (mergeMapStringInterface_spec mergeWitnessM1 mergeWitnessM2
      (by decide) (by decide)).2.1 "b" _ rfl,
   (mergeMapStringInterface_spec mergeWitnessM1 mergeWitnessM2
      (by decide) (by decide)).2.2 "a" _ (by decide) rfl⟩

/-- C2: the ordered rules of the sanitizer `prepareForLog` (a total Lean
function, so totality and absence of panics over every representable input
hold by construction): an error becomes its message string, a nil pointer
becomes null, a non-nil pointer is sanitized as its pointee, a struct
becomes a map keyed by field name that skips non-exported fields, a nil
slice becomes null while a non-nil (even empty) slice stays a non-nil
list — the distinction is preserved — and primitives are unchanged. -/
theorem prepareForLog_rules :
    (∀ m, prepareForLog (.goError m) = .goString m)
    ∧ prepareForLog .goPtrNil = .goNull
    ∧ (∀ p, prepareForLog (.goPtr p) = prepareForLog p)
    ∧ (∀ fs, prepareForLog (.goStruct fs) = .goMap (prepStructFields .nil fs))
    ∧ (∀ fs s, (GoFields.names fs).Nodup →
        (prepStructFields GoEntries.nil fs).lookup s =
          (match fs.lookupField s with
           | some (true, v) => some (prepareForLog v)
           | some (false, _) => none
           | none => none))
    ∧ prepareForLog .goSliceNil = .goNull
    ∧ (∀ xs, prepareForLog (.goSlice xs) = .goSlice (prepListElems xs))
    ∧ prepareForLog (.goSlice .nil) = .goSlice .nil
    ∧ GoValue.goSlice .nil ≠ GoValue.goNull
    ∧ prepareForLog .goNull = .goNull
    ∧ (∀ b, prepareForLog (.goBool b) = .goBool b)
    ∧ (∀ n, prepareForLog (.goInt n) = .goInt n)
    ∧ (∀ s, prepareForLog (.goString s) = .goString s) := by
  refine ⟨fun _ => rfl, rfl, fun _ => rfl, fun _ => rfl, ?_, rfl, fun _ => rfl, rfl,
    ?_, rfl, fun _ => rfl, fun _ => rfl, fun _ => rfl⟩
  · intro fs s h
    rw [prepStructFields_lookup fs .nil s h]
    cases hr : fs.lookupField s with
    | some p =>
        rcases p with ⟨b, w⟩
        cases b <;> rfl
    | none => rfl
  · intro h
    exact GoValue.noConfusion h

def structWitness : GoFields :=
  .cons "Exported" true (.goError "e") (.cons "hidden" false (.goInt 7) .nil)

theorem prepareForLog_rules_witness :
    structWitness.names.Nodup
    ∧ (prepStructFields GoEntries.nil structWitness).lookup "Exported"
        = some (.goString "e")
    ∧ (prepStructFields GoEntries.nil structWitness).lookup "hidden" = none :=
  ⟨by decide,
   by rw [prepareForLog_rules.2.2.2.2.1 structWitness "Exported" (by decide)]; rfl,
   by rw [prepareForLog_rules.2.2.2.2.1 structWitness "hidden" (by decide)]; rfl⟩

/-- C3: the sanitizer is idempotent: for every value `v`,
`prepareForLog (prepareForLog v) = prepareForLog v`. -/
theorem prepareForLog_idempotent (v : GoValue) :
    prepareForLog (prepareForLog v) = prepareForLog v :=
  prepareForLog_prepareForLog v

/-! ## The stacktrace capturer (source: `getStackTrace`)

The Go runtime call stack is modelled as a list of frames, innermost first:
`runtime.Caller(d)` succeeds and yields `stack[d]` exactly when
`d < stack.length`.  The source allocates `traces := make([]string, 50)`
(indices `0..49`), captures frames for `depth = 0,1,...` until
`runtime.Caller` fails or `depth` reaches 50, and then renders
`traces[i]` for `i = depth, depth-1, ..., depthSkip+1`.  When every one of
the 50 capture iterations succeeds the loop leaves `depth = 50`, and the
render loop's first read `traces[50]` is out of range: a Go runtime panic,
modelled by the `none` result. -/

structure Frame where
  name : String
  line : Nat

/-- One captured trace entry: tab, function name, `:`, line, newline. -/
def frameLine (f : Frame) : String :=
  "\t" ++ f.name ++ ":" ++ toString f.line ++ "\n"

/-- `getStackTrace` of the source.  `none` models the out-of-range panic of
the render loop (see the section comment). -/
def getStackTrace (stack : List Frame) (depthSkip : Nat) : Option String :=
  let depthSkip := depthSkip + 1
  let maxDepth := 50
  let depth := min stack.length maxDepth
  let traces : List String := (List.range maxDepth).map (fun d =>
    match stack[d]? with
    | some f => frameLine f
    | none => "")
  if depth = maxDepth ∧ depthSkip < depth then none
  else
    some ("\n" ++ String.join
      (((List.range' (depthSkip + 1) (depth - depthSkip)).reverse).map
        (fun i => traces.getD i "")))

/-! ## The logger core and its effect-trace semantics

A logging call is modelled by the list of externally observable effects it
performs, in order: recording an error on the tracing span, capturing the
stacktrace, invoking a hook, writing a formatted buffer to the shared sink,
printing to the fallback stderr stream, exiting the process, panicking. -/

/-- A Go `error` value, carrying its message. -/
abbrev GoErr := String

/-- Modelled from the spec: the request context consumed by `WithContext`
and the tracing collaborator (`tracing.GetSpan`) are outside the provided
source; per the spec's tracing contract, a context optionally resolves to a
current span (identified here by a name) on which `AddError` can be
called. -/
structure GoContext where
  span : Option String

/-- The `Metadata` struct of the source. -/
structure Metadata where
  channel : String
  context : Option GoContext
  contextFields : GoEntries
  fields : GoEntries
  tags : GoEntries

/-- A formatter: `(timestamp, level, msg, err, data) → ([]byte, error)`.
The four built-in formatters of the registry are not part of the provided
source, so the formatter is kept abstract. -/
abbrev Formatter :=
  String → String → String → Option GoErr → Metadata → Except GoErr String

/-- A `LoggerHook`: `Fire(level, msg, err, data)` returns `some e` on
failure and `none` on success. -/
structure LoggerHook where
  fire : String → String → Option GoErr → Metadata → Option GoErr

/-- An externally observable effect of one logging call.  `panicked` is the
source's deliberate `panic(err)` carrying the original error value;
`runtimePanicked` is the Go runtime's own out-of-range panic raised inside
`getStackTrace` at the 50-frame depth cap (C7), which aborts the rest of
the call. -/
inductive Effect where
  | spanAddError (err : GoErr)
  | stackCaptured
  | hookFired (level : String) (msg : String)
  | sinkWrite (buf : String)
  | stderrWrite (msg : String)
  | processExit (code : Nat)
  | panicked (err : GoErr)
  | runtimePanicked
deriving DecidableEq

/-- The `logger` struct of the source.  `output` and `outputLck` are the
identities of the shared writer and its mutex; `formatterFn` stands for
`formatters[l.format]` (the registry entries are not in the provided
source) and `writeOk` for whether `l.output.Write` succeeds — both are
collaborators the source only calls. -/
structure GoLogger where
  clock : String
  output : Nat
  outputLck : Nat
  ctxResolver : List (GoContext → GoEntries)
  hooks : List LoggerHook
  level : Nat
  format : String
  timestampFormat : String
  data : Metadata
  formatterFn : Formatter
  writeOk : Bool

/-- Modelled from the spec: `FormatTime` is defined outside the provided
source; it renders the clock's current instant, which the logger model
carries already rendered, so the timestamp format is not interpreted. -/
def FormatTime (now : String) (_format : String) : String := now

/-- `copy` of the source: a fresh logger value sharing every component. -/
def GoLogger.copy (l : GoLogger) : GoLogger :=
  { clock := l.clock, output := l.output, outputLck := l.outputLck,
    ctxResolver := l.ctxResolver, hooks := l.hooks, level := l.level,
    format := l.format, timestampFormat := l.timestampFormat, data := l.data,
    formatterFn := l.formatterFn, writeOk := l.writeOk }

/-- `WithChannel` of the source. -/
def GoLogger.WithChannel (l : GoLogger) (channel : String) : GoLogger :=
  let cpy := l.copy
  { cpy with data := { cpy.data with channel := channel } }

/-- `WithContext` of the source: nil context is a no-op; otherwise the copy
stores the context and folds every registered resolver's fields into
`contextFields` via `mergeMapStringInterface`. -/
def GoLogger.WithContext (l : GoLogger) (ctx : Option GoContext) : GoLogger :=
  match ctx with
  | none => l
  | some c =>
      let cpy := l.copy
      let cpy := { cpy with data := { cpy.data with context := some c } }
      l.ctxResolver.foldl (fun acc r =>
        { acc with data := { acc.data with
            contextFields := mergeMapStringInterface acc.data.contextFields (r c) } }) cpy

/-- `WithFields` of the source. -/
def GoLogger.WithFields (l : GoLogger) (fields : GoEntries) : GoLogger :=
  let cpy := l.copy
  { cpy with data := { cpy.data with
      fields := mergeMapStringInterface l.data.fields fields } }

/-- `write` of the source: one write to the shared sink; a write error is
printed to stderr and swallowed. -/
def GoLogger.write (l : GoLogger) (buffer : String) : List Effect :=
  Effect.sinkWrite buffer ::
    (if l.writeOk then [] else [Effect.stderrWrite "Failed to write to log"])

/-- The `err` method of the source: formats an Error-level record carrying
the given error and writes it to the primary sink; only a formatter failure
reaches the stderr fallback (the nil buffer is still written). -/
def GoLogger.errReport (l : GoLogger) (e : GoErr) : List Effect :=
  let timestamp := FormatTime l.clock l.timestampFormat
  match l.formatterFn timestamp Error e (some e) l.data with
  | .ok buffer => l.write buffer
  | .error _ => Effect.stderrWrite "Failed to write to log" :: l.write ""

/-- The per-call metadata copy of `log`: the logger's retained metadata
with the call-site fields merged in. -/
def mergedCallData (l : GoLogger) (fields : GoEntries) : Metadata :=
  { l.data with fields := mergeMapStringInterface l.data.fields fields }

/-- The hook loop of `log`: every hook of the list is fired in order; a
failing hook is reported through `errReport` and the loop continues. -/
def hookLoopEffects (l : GoLogger) (hooks : List LoggerHook) (level msg : String)
    (logErr : Option GoErr) (data : Metadata) : List Effect :=
  (hooks.map (fun h =>
    Effect.hookFired level msg ::
      (match h.fire level msg logErr data with
       | some e => l.errReport e
       | none => []))).flatten

/-- `log` of the source: the authoritative severity gate, then the hook
loop over `l.hooks`, then the formatter (a failure goes to stderr and
leaves a nil buffer), then the single primary write. -/
def GoLogger.log (l : GoLogger) (level msg : String) (logErr : Option GoErr)
    (fields : GoEntries) : List Effect :=
  let levelNo := levelPriority level
  if levelNo < l.level then []
  else
    let cpyData := mergedCallData l fields
    let hookEffects := hookLoopEffects l l.hooks level msg logErr cpyData
    let timestamp := FormatTime l.clock l.timestampFormat
    let fmtResult :=
      match l.formatterFn timestamp level msg logErr cpyData with
      | .ok buffer => (([] : List Effect), buffer)
      | .error _ => ([Effect.stderrWrite "Failed to write to log"], "")
    hookEffects ++ fmtResult.1 ++ l.write fmtResult.2

/-- The span branch of `logError`: if a context is attached and resolves
to a span, the error is recorded on the span. -/
def spanEffects (l : GoLogger) (e : GoErr) : List Effect :=
  match l.data.context with
  | some ctx =>
      match ctx.span with
      | some _ => [Effect.spanAddError e]
      | none => []
  | none => []

/-- `logError` of the source: the span branch runs first, then the
`Fields{"stacktrace": getStackTrace(1)}` argument of the `l.log` call is
evaluated — so the capture precedes the severity gate inside `log`.  When
`getStackTrace` hits its 50-frame out-of-range panic (C7, the `none`
result) that panic propagates out of `logError` before `log` is ever
called: the trace ends in `runtimePanicked` and nothing further runs. -/
def GoLogger.logError (l : GoLogger) (level : String) (e : GoErr) (msg : String)
    (stack : List Frame) : List Effect :=
  spanEffects l e ++
  (match getStackTrace stack 1 with
   | none => [Effect.runtimePanicked]
   | some st =>
       Effect.stackCaptured ::
       l.log level msg (some e) (.cons "stacktrace" (GoValue.goString st) .nil))

/-- `Info` of the source (`fmt.Sprint(args...)` is taken as the already
joined message). -/
def GoLogger.Info (l : GoLogger) (msg : String) : List Effect :=
  l.log Mon.Info msg none .nil

/-- `Debug` of the source, with its early short-circuit before the shared
path. -/
def GoLogger.Debug (l : GoLogger) (msg : String) : List Effect :=
  if l.level > levelPriority Mon.Debug then [] else l.log Mon.Debug msg none .nil

/-- `Debugf` of the source (`fmt.Sprintf` is taken as the already formatted
message); it carries the same early short-circuit. -/
def GoLogger.Debugf (l : GoLogger) (msg : String) : List Effect :=
  if l.level > levelPriority Mon.Debug then [] else l.log Mon.Debug msg none .nil

/-- `Warn` of the source. -/
def GoLogger.Warn (l : GoLogger) (msg : String) : List Effect :=
  l.log Mon.Warn msg none .nil

/-- `Error` of the source. -/
def GoLogger.Error (l : GoLogger) (e : GoErr) (msg : String)
    (stack : List Frame) : List Effect :=
  l.logError Mon.Error e msg stack

/-- Whether an effect is the runtime's out-of-range panic from
`getStackTrace`; a trace containing it aborted before returning, so the
statement that follows the aborted call never runs. -/
def isRuntimePanic : Effect → Bool
  | .runtimePanicked => true
  | _ => false

/-- `Fatal` of the source: log, then `os.Exit(1)` — unless `logError`
itself panicked (the C7 out-of-range panic), in which case the panic
propagates and the exit statement is never reached. -/
def GoLogger.Fatal (l : GoLogger) (e : GoErr) (msg : String)
    (stack : List Frame) : List Effect :=
  let le := l.logError Mon.Fatal e msg stack
  if le.any isRuntimePanic then le else le ++ [Effect.processExit 1]

/-- `Fatalf` of the source. -/
def GoLogger.Fatalf (l : GoLogger) (e : GoErr) (msg : String)
    (stack : List Frame) : List Effect :=
  let le := l.logError Mon.Fatal e msg stack
  if le.any isRuntimePanic then le else le ++ [Effect.processExit 1]

/-- `Panic` of the source: log, then `panic(err)` with the original error
value — unless `logError` itself panicked first (the C7 out-of-range
panic), in which case that runtime panic propagates instead. -/
def GoLogger.Panic (l : GoLogger) (e : GoErr) (msg : String)
    (stack : List Frame) : List Effect :=
  let le := l.logError Mon.Panic e msg stack
  if le.any isRuntimePanic then le else le ++ [Effect.panicked e]

/-- `Panicf` of the source. -/
def GoLogger.Panicf (l : GoLogger) (e : GoErr) (msg : String)
    (stack : List Frame) : List Effect :=
  let le := l.logError Mon.Panic e msg stack
  if le.any isRuntimePanic then le else le ++ [Effect.panicked e]

/-! ## Effect counting helpers -/

/-- Whether an effect is a write of a record to the shared sink. -/
def isSinkWrite : Effect → Bool
  | .sinkWrite _ => true
  | _ => false

/-- Whether an effect is a print to the fallback stderr stream. -/
def isStderrWrite : Effect → Bool
  | .stderrWrite _ => true
  | _ => false

/-- Whether an effect is a hook invocation. -/
def isHookFired : Effect → Bool
  | .hookFired _ _ => true
  | _ => false

/-- Whether an effect transfers control away (process exit, deliberate
panic, or the runtime's out-of-range panic). -/
def isControlEffect : Effect → Bool
  | .processExit _ => true
  | .panicked _ => true
  | .runtimePanicked => true
  | _ => false

/-- Whether an effect is a process exit. -/
def isProcessExit : Effect → Bool
  | .processExit _ => true
  | _ => false

/-- The number of records a trace writes to the shared sink. -/
def sinkWriteCount (effs : List Effect) : Nat := effs.countP isSinkWrite

/-- The number of hooks a trace fired. -/
def hookFiredCount (effs : List Effect) : Nat := effs.countP isHookFired

/-- The number of hooks of `l` whose `Fire` fails for the given call. -/
def hookFailCount (l : GoLogger) (level msg : String) (logErr : Option GoErr)
    (fields : GoEntries) : Nat :=
  (l.hooks.filter (fun h =>
    (h.fire level msg logErr (mergedCallData l fields)).isSome)).length

/-! ## Counting lemmas for the logging path -/

theorem write_sinkCount (l : GoLogger) (b : String) :
    sinkWriteCount (l.write b) = 1 := by
  cases hw : l.writeOk <;>
    simp [GoLogger.write, sinkWriteCount, hw, isSinkWrite, List.countP_cons]

theorem errReport_sinkCount (l : GoLogger) (e : GoErr) :
    sinkWriteCount (l.errReport e) = 1 := by
  rw [GoLogger.errReport]
  cases hf : l.formatterFn (FormatTime l.clock l.timestampFormat) Error e (some e) l.data with
  | ok b => exact write_sinkCount l b
  | error fe =>
      simp only [sinkWriteCount, List.countP_cons]
      rw [show (isSinkWrite (Effect.stderrWrite "Failed to write to log")) = false from rfl]
      simpa [sinkWriteCount] using write_sinkCount l ""

theorem hookLoop_sinkCount (l : GoLogger) (level msg : String) (logErr : Option GoErr)
    (data : Metadata) (hooks : List LoggerHook) :
    sinkWriteCount (hookLoopEffects l hooks level msg logErr data)
      = (hooks.filter (fun h => (h.fire level msg logErr data).isSome)).length := by
  induction hooks with
  | nil => rfl
  | cons h hs ih =>
      rw [show hookLoopEffects l (h :: hs) level msg logErr data
            = (Effect.hookFired level msg ::
                (match h.fire level msg logErr data with
                 | some e => l.errReport e
                 | none => [])) ++ hookLoopEffects l hs level msg logErr data from by
        simp [hookLoopEffects]]
      simp only [sinkWriteCount, List.countP_append, List.countP_cons] at *
      rw [show (isSinkWrite (Effect.hookFired level msg)) = false from rfl]
      cases hf : h.fire level msg logErr data with
      | some e =>
          have he := errReport_sinkCount l e
          simp only [sinkWriteCount] at he
          simp [List.filter_cons, hf, he, ih]
          omega
      | none =>
          simp [List.filter_cons, hf, ih]

theorem write_firedCount (l : GoLogger) (b : String) :
    hookFiredCount (l.write b) = 0 := by
  cases hw : l.writeOk <;>
    simp [GoLogger.write, hookFiredCount, hw, isHookFired, List.countP_cons]

theorem errReport_firedCount (l : GoLogger) (e : GoErr) :
    hookFiredCount (l.errReport e) = 0 := by
  rw [GoLogger.errReport]
  cases hf : l.formatterFn (FormatTime l.clock l.timestampFormat) Error e (some e) l.data with
  | ok b => exact write_firedCount l b
  | error fe =>
      simp only [hookFiredCount, List.countP_cons]
      rw [show (isHookFired (Effect.stderrWrite "Failed to write to log")) = false from rfl]
      simpa [hookFiredCount] using write_firedCount l ""

theorem hookLoop_firedCount (l : GoLogger) (level msg : String) (logErr : Option GoErr)
    (data : Metadata) (hooks : List LoggerHook) :
    hookFiredCount (hookLoopEffects l hooks level msg logErr data) = hooks.length := by
  induction hooks with
  | nil => rfl
  | cons h hs ih =>
      rw [show hookLoopEffects l (h :: hs) level msg logErr data
            = (Effect.hookFired level msg ::
                (match h.fire level msg logErr data with
                 | some e => l.errReport e
                 | none => [])) ++ hookLoopEffects l hs level msg logErr data from by
        simp [hookLoopEffects]]
      simp only [hookFiredCount, List.countP_append, List.countP_cons] at *
      rw [show (isHookFired (Effect.hookFired level msg)) = true from rfl]
      cases hf : h.fire level msg logErr data with
      | some e =>
          have he := errReport_firedCount l e
          simp only [hookFiredCount] at he
          simp [he, ih, List.length_cons]
          omega
      | none =>
          simp [ih, List.length_cons]
          omega

theorem log_sinkCount (l : GoLogger) (level msg : String) (logErr : Option GoErr)
    (fields : GoEntries) :
    sinkWriteCount (l.log level msg logErr fields)
      = if levelPriority level < l.level then 0
        else 1 + hookFailCount l level msg logErr fields := by
  by_cases hg : levelPriority level < l.level
  · simp [GoLogger.log, hg, sinkWriteCount]
  · simp only [GoLogger.log, if_neg hg]
    cases hf : l.formatterFn (FormatTime l.clock l.timestampFormat) level msg logErr
        (mergedCallData l fields) with
    | ok b =>
        simp only [hf]
        have h1 := hookLoop_sinkCount l level msg logErr (mergedCallData l fields) l.hooks
        have h2 := write_sinkCount l b
        simp only [sinkWriteCount, List.countP_append] at *
        simp [h1, h2, hookFailCount]
        omega
    | error fe =>
        simp only [hf]
        have h1 := hookLoop_sinkCount l level msg logErr (mergedCallData l fields) l.hooks
        have h2 := write_sinkCount l ""
        simp only [sinkWriteCount, List.countP_append, List.countP_cons] at *
        rw [show (isSinkWrite (Effect.stderrWrite "Failed to write to log")) = false from rfl]
        simp [h1, h2, hookFailCount]
        omega

theorem log_firedCount (l : GoLogger) (level msg : String) (logErr : Option GoErr)
    (fields : GoEntries) :
    hookFiredCount (l.log level msg logErr fields)
      = if levelPriority level < l.level then 0 else l.hooks.length := by
  by_cases hg : levelPriority level < l.level
  · simp [GoLogger.log, hg, hookFiredCount]
  · simp only [GoLogger.log, if_neg hg]
    cases hf : l.formatterFn (FormatTime l.clock l.timestampFormat) level msg logErr
        (mergedCallData l fields) with
    | ok b =>
        simp only [hf]
        have h1 := hookLoop_firedCount l level msg logErr (mergedCallData l fields) l.hooks
        have h2 := write_firedCount l b
        simp only [hookFiredCount, List.countP_append] at *
        simp [h1, h2, if_neg hg]
    | error fe =>
        simp only [hf]
        have h1 := hookLoop_firedCount l level msg logErr (mergedCallData l fields) l.hooks
        have h2 := write_firedCount l ""
        simp only [hookFiredCount, List.countP_append, List.countP_cons] at *
        rw [show (isHookFired (Effect.stderrWrite "Failed to write to log")) = false from rfl]
        simp [h1, h2, if_neg hg]

theorem Debug_eq_log (l : GoLogger) (m : String) :
    l.Debug m = l.log Mon.Debug m none .nil := by
  rw [GoLogger.Debug]
  by_cases hd : levelPriority Mon.Debug < l.level
  · rw [if_pos hd]
    simp [GoLogger.log, hd]
  · rw [if_neg hd]

theorem Debugf_eq_log (l : GoLogger) (m : String) :
    l.Debugf m = l.log Mon.Debug m none .nil := by
  rw [GoLogger.Debugf]
  by_cases hd : levelPriority Mon.Debug < l.level
  · rw [if_pos hd]
    simp [GoLogger.log, hd]
  · rw [if_neg hd]

theorem write_controlCount (l : GoLogger) (b : String) :
    (l.write b).countP isControlEffect = 0 := by
  cases hw : l.writeOk <;>
    simp [GoLogger.write, hw, isControlEffect, List.countP_cons]

theorem errReport_controlCount (l : GoLogger) (e : GoErr) :
    (l.errReport e).countP isControlEffect = 0 := by
  rw [GoLogger.errReport]
  cases hf : l.formatterFn (FormatTime l.clock l.timestampFormat) Error e (some e) l.data with
  | ok b => exact write_controlCount l b
  | error fe =>
      simp only [List.countP_cons]
      rw [show (isControlEffect (Effect.stderrWrite "Failed to write to log")) = false from rfl]
      simpa using write_controlCount l ""

theorem hookLoop_controlCount (l : GoLogger) (level msg : String) (logErr : Option GoErr)
    (data : Metadata) (hooks : List LoggerHook) :
    (hookLoopEffects l hooks level msg logErr data).countP isControlEffect = 0 := by
  induction hooks with
  | nil => rfl
  | cons h hs ih =>
      rw [show hookLoopEffects l (h :: hs) level msg logErr data
            = (Effect.hookFired level msg ::
                (match h.fire level msg logErr data with
                 | some e => l.errReport e
                 | none => [])) ++ hookLoopEffects l hs level msg logErr data from by
        simp [hookLoopEffects]]
      simp only [List.countP_append, List.countP_cons]
      rw [show (isControlEffect (Effect.hookFired level msg)) = false from rfl]
      cases hf : h.fire level msg logErr data with
      | some e => simp [errReport_controlCount l e, ih]
      | none => simp [ih]

theorem log_controlCount (l : GoLogger) (level msg : String) (logErr : Option GoErr)
    (fields : GoEntries) :
    (l.log level msg logErr fields).countP isControlEffect = 0 := by
  by_cases hg : levelPriority level < l.level
  · simp [GoLogger.log, hg]
  · simp only [GoLogger.log, if_neg hg]
    cases hf : l.formatterFn (FormatTime l.clock l.timestampFormat) level msg logErr
        (mergedCallData l fields) with
    | ok b =>
        simp only [hf]
        simp [List.countP_append, hookLoop_controlCount, write_controlCount]
    | error fe =>
        simp only [hf]
        simp only [List.countP_append, List.countP_cons]
        rw [show (isControlEffect (Effect.stderrWrite "Failed to write to log")) = false from rfl]
        simp [hookLoop_controlCount, write_controlCount]

theorem spanEffects_mem (l : GoLogger) (e : GoErr) :
    ∀ x ∈ spanEffects l e, x = Effect.spanAddError e := by
  intro x hx
  rw [spanEffects] at hx
  split at hx
  · split at hx
    · simpa using hx
    · cases hx
  · cases hx

theorem logError_controlCount (l : GoLogger) (level : String) (e : GoErr) (msg : String)
    (stack : List Frame) (st : String) (hst : getStackTrace stack 1 = some st) :
    (l.logError level e msg stack).countP isControlEffect = 0 := by
  rw [GoLogger.logError, hst]
  have hspan : (spanEffects l e).countP isControlEffect = 0 :=
    List.countP_eq_zero.mpr (fun x hx => by
      rw [spanEffects_mem l e x hx]
      simp [isControlEffect])
  have hl := log_controlCount l level msg (some e)
    (.cons "stacktrace" (GoValue.goString st) .nil)
  simp only [List.countP_append, List.countP_cons]
  rw [show (isControlEffect Effect.stackCaptured) = false from rfl]
  simp [hspan, hl]

theorem logError_not_aborted (l : GoLogger) (level : String) (e : GoErr) (msg : String)
    (stack : List Frame) (st : String) (hst : getStackTrace stack 1 = some st) :
    (l.logError level e msg stack).any isRuntimePanic = false := by
  have h0 := logError_controlCount l level e msg stack st hst
  rw [List.any_eq_false]
  intro x hx
  have hc := List.countP_eq_zero.mp h0 x hx
  cases x <;> simp_all [isControlEffect, isRuntimePanic]

theorem logError_aborted (l : GoLogger) (level : String) (e : GoErr) (msg : String)
    (stack : List Frame) (hst : getStackTrace stack 1 = none) :
    l.logError level e msg stack = spanEffects l e ++ [Effect.runtimePanicked] := by
  rw [GoLogger.logError, hst]

/-! ## Claims C4 and C6 -/

/-- The default metadata of `NewLoggerWithInterfaces`. -/
def metadataDefault : Metadata :=
  { channel := ChannelDefault, context := none, contextFields := .nil,
    fields := .nil, tags := .nil }

/-- A hook whose `Fire` always fails. -/
def hookAlwaysFailC4 : LoggerHook := ⟨fun _ _ _ _ => some "hook failed"⟩

/-- A formatter that always succeeds with a fixed line. -/
def fmtOkC4 : Formatter := fun _ _ _ _ _ => .ok "primary line"

/-- A logger configured with level Info whose single registered hook always
fails. -/
def loggerInfoFailingHook : GoLogger :=
  { clock := "15:04:05.000", output := 0, outputLck := 0, ctxResolver := [],
    hooks := [hookAlwaysFailC4], level := levelPriority Info,
    format := "console", timestampFormat := "15:04:05.000",
    data := metadataDefault, formatterFn := fmtOkC4, writeOk := true }

/-- C4 counterexample: a logger configured with level Info whose hook fails
writes two records to the sink for a single Info call (the hook-failure
error record plus the primary line), not exactly one. -/
theorem log_not_exactly_one_write_with_failing_hook :
    sinkWriteCount (loggerInfoFailingHook.log Info "created" none .nil) = 2 := by
  decide

/-- C4 (amended): output is produced exactly when
`priority(callLevel) ≥ priority(configuredLevel)` — a suppressed call
writes nothing, and an accepted call writes one primary record plus one
error record per failing hook (so exactly one when every hook succeeds);
moreover the early short-circuit of `Debug`/`Debugf` never changes the
produced effects compared to the authoritative gate of the shared `log`
path. -/
theorem log_output_iff_level_spec (l : GoLogger) (level msg : String)
    (logErr : Option GoErr) (fields : GoEntries) :
    (sinkWriteCount (l.log level msg logErr fields)
      = if levelPriority level < l.level then 0
        else 1 + hookFailCount l level msg logErr fields)
    ∧ (∀ m, l.Debug m = l.log Mon.Debug m none .nil)
    ∧ (∀ m, l.Debugf m = l.log Mon.Debug m none .nil) :=
  ⟨log_sinkCount l level msg logErr fields,
   fun m => Debug_eq_log l m, fun m => Debugf_eq_log l m⟩

/-- A hook whose `Fire` always fails (C6). -/
def hookAlwaysFailC6 : LoggerHook := ⟨fun _ _ _ _ => some "hook failure"⟩

/-- A formatter that always succeeds (C6). -/
def fmtOkC6 : Formatter := fun _ _ _ _ _ => .ok "out"

/-- A logger with one always-failing hook and a succeeding formatter. -/
def loggerHookFailC6 : GoLogger :=
  { clock := "15:04:05.000", output := 0, outputLck := 0, ctxResolver := [],
    hooks := [hookAlwaysFailC6], level := levelPriority Info,
    format := "console", timestampFormat := "15:04:05.000",
    data := metadataDefault, formatterFn := fmtOkC6, writeOk := true }

/-- C6 counterexample: the hook of `loggerHookFailC6` fails on an accepted
Info call, yet nothing reaches the fallback stderr stream — the failure is
reported as a second record on the primary sink instead. -/
theorem hook_failure_not_on_fallback_stream :
    (hookAlwaysFailC6.fire Info "m" none
        (mergedCallData loggerHookFailC6 .nil)).isSome = true
    ∧ (loggerHookFailC6.log Info "m" none .nil).countP isStderrWrite = 0
    ∧ sinkWriteCount (loggerHookFailC6.log Info "m" none .nil) = 2 := by
  refine ⟨rfl, ?_, ?_⟩ <;> decide

/-- C6 (amended): on an accepted call every registered hook still runs
(a failure never stops the remaining hooks), and each hook failure is
reported by formatting an Error-level record and writing it to the primary
sink — the fallback stderr stream is used only if that formatting itself
fails — so the sink receives the primary line exactly once plus one error
record per failing hook; nothing is returned to the caller. -/
theorem hook_failure_spec (l : GoLogger) (level msg : String)
    (logErr : Option GoErr) (fields : GoEntries)
    (hg : ¬ levelPriority level < l.level) :
    hookFiredCount (l.log level msg logErr fields) = l.hooks.length
    ∧ sinkWriteCount (l.log level msg logErr fields)
        = 1 + hookFailCount l level msg logErr fields := by
  constructor
  · rw [log_firedCount l level msg logErr fields, if_neg hg]
  · rw [log_sinkCount l level msg logErr fields, if_neg hg]

theorem hook_failure_spec_witness :
    (¬ levelPriority Info < loggerHookFailC6.level)
    ∧ hookFiredCount (loggerHookFailC6.log Info "m" none .nil) = 1
    ∧ sinkWriteCount (loggerHookFailC6.log Info "m" none .nil) = 2 := by
  have h := hook_failure_spec loggerHookFailC6 Info "m" none .nil (by decide)
  exact ⟨by decide, by rw [h.1]; decide, by rw [h.2]; decide⟩

/-! ## Claim C5 -/

/-- C5 counterexample: `"verbose"` is not a registered level name, yet
`levelPriority` silently returns priority 0 for it instead of any
configuration failure. -/
theorem levelPriority_unknown_counterexample :
    ("verbose" ∉ [Trace, Debug, Info, Warn, Error, Fatal, Panic])
    ∧ levelPriority "verbose" = 0 := by
  constructor <;> decide

/-- C5 (amended): for every string that is not among the seven registered
level names, `levelPriority` returns 0 — the unknown name is silently
treated as priority 0, which makes every call pass the severity filter,
rather than being rejected at configuration time. -/
theorem levelPriority_unknown_spec (s : String)
    (h : s ∉ [Trace, Debug, Info, Warn, Error, Fatal, Panic]) :
    levelPriority s = 0
    ∧ ∀ callLevel : String, ¬ levelPriority callLevel < levelPriority s := by
  have h0 : levelPriority s = 0 := by
    simp only [List.mem_cons, List.not_mem_nil, or_false] at h
    push_neg at h
    obtain ⟨h1, h2, h3, h4, h5, h6, h7⟩ := h
    simp only [levelPriority, levels, lookupLevel,
      if_neg (Ne.symm h1), if_neg (Ne.symm h2), if_neg (Ne.symm h3),
      if_neg (Ne.symm h4), if_neg (Ne.symm h5), if_neg (Ne.symm h6),
      if_neg (Ne.symm h7)]
    rfl
  exact ⟨h0, fun c => by rw [h0]; exact Nat.not_lt_zero _⟩

theorem levelPriority_unknown_spec_witness :
    ("verbose" ∉ [Trace, Debug, Info, Warn, Error, Fatal, Panic])
    ∧ levelPriority "verbose" = 0
    ∧ ¬ levelPriority Panic < levelPriority "verbose" :=
  ⟨by decide,
   (levelPriority_unknown_spec "verbose" (by decide)).1,
   (levelPriority_unknown_spec "verbose" (by decide)).2 Panic⟩

/-! ## Claim C7 -/

/-- A call stack of exactly 50 resolvable frames. -/
def deepStack : List Frame :=
  (List.range 50).map (fun i => { name := "caller", line := i })

/-- A call stack of 49 resolvable frames. -/
def shallowStack : List Frame :=
  (List.range 49).map (fun i => { name := "caller", line := i })

/-- C7: the capture loop is capped at 50 frames, but when the stack has 50
or more resolvable frames the loop leaves `depth = 50` and the render loop
reads `traces[50]` — one past the end of the 50-element `traces` slice — a
Go runtime out-of-range panic (the `none` result), so `getStackTrace` is
not total for stacks of 50 or more frames; one frame fewer renders
normally. -/
theorem getStackTrace_panics_at_depth_cap :
    getStackTrace deepStack 1 = none
    ∧ (getStackTrace shallowStack 1).isSome = true := by
  constructor <;> decide

/-! ## Claim C8 -/

/-- The configuration shared between a chained logger and its receiver:
clock, sink writer, sink lock, resolvers, hooks, level, format, timestamp
format, formatter and write capability. -/
def sharesConfig (a b : GoLogger) : Prop :=
  a.clock = b.clock ∧ a.output = b.output ∧ a.outputLck = b.outputLck
  ∧ a.ctxResolver = b.ctxResolver ∧ a.hooks = b.hooks ∧ a.level = b.level
  ∧ a.format = b.format ∧ a.timestampFormat = b.timestampFormat
  ∧ a.formatterFn = b.formatterFn ∧ a.writeOk = b.writeOk

theorem withContext_foldl (c : GoContext) (rs : List (GoContext → GoEntries)) :
    ∀ acc : GoLogger,
    rs.foldl (fun a r => { a with data := { a.data with
        contextFields := mergeMapStringInterface a.data.contextFields (r c) } }) acc
      = { acc with data := { acc.data with
          contextFields := rs.foldl
            (fun cf r => mergeMapStringInterface cf (r c)) acc.data.contextFields } } := by
  induction rs with
  | nil => intro acc; rfl
  | cons r rest ih =>
      intro acc
      simp only [List.foldl_cons]
      rw [ih]

/-- C8: every chaining operation is pure in the value-semantics model (the
receiver is a value and is never modified; the Go-level hazard, aliasing of
the metadata maps, is excluded because the merge performs a deep sanitized
copy, C1): the returned logger shares the whole configuration with the
receiver; `WithChannel` changes only the channel; `WithFields` merges only
onto `fields` and leaves `contextFields`, `channel`, `tags` and `context`
alone; `WithContext` with an absent context returns the receiver itself,
and with a present context changes only `context` and `contextFields`
(folding every resolver's output into them). -/
theorem chaining_pure (l : GoLogger) (c : String) (ctx : GoContext) (f : GoEntries) :
    (sharesConfig (l.WithChannel c) l
      ∧ (l.WithChannel c).data = { l.data with channel := c })
    ∧ (sharesConfig (l.WithFields f) l
      ∧ (l.WithFields f).data
          = { l.data with fields := mergeMapStringInterface l.data.fields f })
    ∧ l.WithContext none = l
    ∧ (sharesConfig (l.WithContext (some ctx)) l
      ∧ (l.WithContext (some ctx)).data.fields = l.data.fields
      ∧ (l.WithContext (some ctx)).data.channel = l.data.channel
      ∧ (l.WithContext (some ctx)).data.tags = l.data.tags
      ∧ (l.WithContext (some ctx)).data.context = some ctx
      ∧ (l.WithContext (some ctx)).data.contextFields
          = l.ctxResolver.foldl
              (fun cf r => mergeMapStringInterface cf (r ctx)) l.data.contextFields) := by
  have hctx : l.WithContext (some ctx)
      = { l with data := { l.data with
            context := some ctx
            contextFields :=
              l.ctxResolver.foldl (fun cf r => mergeMapStringInterface cf (r ctx))
                l.data.contextFields } } := by
    simp only [GoLogger.WithContext]
    rw [withContext_foldl]
    rfl
  refine ⟨⟨⟨rfl, rfl, rfl, rfl, rfl, rfl, rfl, rfl, rfl, rfl⟩, rfl⟩,
    ⟨⟨rfl, rfl, rfl, rfl, rfl, rfl, rfl, rfl, rfl, rfl⟩, rfl⟩, rfl, ?_⟩
  rw [hctx]
  exact ⟨⟨rfl, rfl, rfl, rfl, rfl, rfl, rfl, rfl, rfl, rfl⟩, rfl, rfl, rfl, rfl, rfl⟩

/-! ## Claim C9 -/

/-- A formatter that always succeeds (C9). -/
def fmtOkC9 : Formatter := fun _ _ _ _ _ => .ok "out"

/-- A plain Info-level logger without hooks or context (C9). -/
def loggerC9 : GoLogger :=
  { clock := "15:04:05.000", output := 0, outputLck := 0, ctxResolver := [],
    hooks := [], level := levelPriority Info,
    format := "console", timestampFormat := "15:04:05.000",
    data := metadataDefault, formatterFn := fmtOkC9, writeOk := true }

/-- C9 counterexample: on a call stack of 50 resolvable frames, `Fatal`
does not terminate the process — `getStackTrace`'s out-of-range panic
(C7) propagates out of `logError` before `os.Exit(1)` is reached, so the
trace contains no process exit and ends in the runtime panic. -/
theorem fatal_no_exit_on_deep_stack :
    (loggerC9.Fatal "boom" "m" deepStack).countP isProcessExit = 0
    ∧ (loggerC9.Fatal "boom" "m" deepStack).getLast? = some Effect.runtimePanicked
    ∧ Effect.processExit 1 ∉ loggerC9.Fatal "boom" "m" deepStack := by
  refine ⟨?_, ?_, ?_⟩ <;> decide

/-- C9 (amended): provided the stacktrace capture does not hit the
50-frame depth cap (so `logError` completes, C7), `Panic`/`Panicf` first
perform the `logError` effects and then raise exactly the original error
value as a panic (interceptable by an enclosing recovery boundary) and
never exit the process, whereas `Fatal`/`Fatalf` perform the `logError`
effects and then unconditionally exit with status 1 (non-zero, regardless
of hooks) and never panic.  On a stack of 50 or more resolvable frames the
out-of-range runtime panic propagates instead and `Fatal` never reaches
`os.Exit(1)`. -/
theorem panic_fatal_spec (l : GoLogger) (e : GoErr) (msg : String) (stack : List Frame)
    (hst : (getStackTrace stack 1).isSome = true) :
    (l.Panic e msg stack = l.logError Mon.Panic e msg stack ++ [Effect.panicked e]
      ∧ l.Panicf e msg stack = l.logError Mon.Panic e msg stack ++ [Effect.panicked e]
      ∧ (l.Panic e msg stack).getLast? = some (Effect.panicked e)
      ∧ (∀ code, Effect.processExit code ∉ l.Panic e msg stack))
    ∧ (l.Fatal e msg stack = l.logError Mon.Fatal e msg stack ++ [Effect.processExit 1]
      ∧ l.Fatalf e msg stack = l.logError Mon.Fatal e msg stack ++ [Effect.processExit 1]
      ∧ (l.Fatal e msg stack).getLast? = some (Effect.processExit 1)
      ∧ (∀ e', Effect.panicked e' ∉ l.Fatal e msg stack)) := by
  obtain ⟨st, hsome⟩ := Option.isSome_iff_exists.mp hst
  have hnabP := logError_not_aborted l Mon.Panic e msg stack st hsome
  have hnabF := logError_not_aborted l Mon.Fatal e msg stack st hsome
  have hctrlP : ∀ x ∈ l.logError Mon.Panic e msg stack, ¬ (isControlEffect x = true) :=
    List.countP_eq_zero.mp (logError_controlCount l Mon.Panic e msg stack st hsome)
  have hctrlF : ∀ x ∈ l.logError Mon.Fatal e msg stack, ¬ (isControlEffect x = true) :=
    List.countP_eq_zero.mp (logError_controlCount l Mon.Fatal e msg stack st hsome)
  have hP : l.Panic e msg stack
      = l.logError Mon.Panic e msg stack ++ [Effect.panicked e] := by
    simp only [GoLogger.Panic]
    rw [hnabP]
    simp
  have hPf : l.Panicf e msg stack
      = l.logError Mon.Panic e msg stack ++ [Effect.panicked e] := by
    simp only [GoLogger.Panicf]
    rw [hnabP]
    simp
  have hF : l.Fatal e msg stack
      = l.logError Mon.Fatal e msg stack ++ [Effect.processExit 1] := by
    simp only [GoLogger.Fatal]
    rw [hnabF]
    simp
  have hFf : l.Fatalf e msg stack
      = l.logError Mon.Fatal e msg stack ++ [Effect.processExit 1] := by
    simp only [GoLogger.Fatalf]
    rw [hnabF]
    simp
  refine ⟨⟨hP, hPf, ?_, ?_⟩, hF, hFf, ?_, ?_⟩
  · rw [hP, List.getLast?_append_cons]
    rfl
  · intro code hmem
    rw [hP] at hmem
    rcases List.mem_append.mp hmem with hin | hin
    · exact hctrlP _ hin rfl
    · simp only [List.mem_singleton] at hin
      exact Effect.noConfusion hin
  · rw [hF, List.getLast?_append_cons]
    rfl
  · intro e' hmem
    rw [hF] at hmem
    rcases List.mem_append.mp hmem with hin | hin
    · exact hctrlF _ hin rfl
    · simp only [List.mem_singleton] at hin
      exact Effect.noConfusion hin

theorem panic_fatal_spec_witness :
    ((getStackTrace ([] : List Frame) 1).isSome = true)
    ∧ loggerC9.Panic "boom" "m" []
        = loggerC9.logError Mon.Panic "boom" "m" [] ++ [Effect.panicked "boom"]
    ∧ (loggerC9.Fatal "boom" "m" []).getLast? = some (Effect.processExit 1) := by
  have h := panic_fatal_spec loggerC9 "boom" "m" [] (by decide)
  exact ⟨by decide, h.1.1, h.2.2.2.1⟩

/-! ## Claim C10 -/

/-- The tracing context used by C10: it resolves to a span. -/
def ctxWitness : GoContext := ⟨some "span-1"⟩

/-- A logger configured at Panic level (priority 6) with an attached
context whose span is present. -/
def loggerSuppressed : GoLogger :=
  { clock := "15:04:05.000", output := 0, outputLck := 0, ctxResolver := [],
    hooks := [], level := levelPriority Panic,
    format := "console", timestampFormat := "15:04:05.000",
    data := { metadataDefault with context := some ctxWitness },
    formatterFn := fmtOkC4, writeOk := true }

/-- C10 counterexample: on a 50-frame stack the capture's out-of-range
panic (C7) fires before the severity filter, so the stacktrace is never
captured — the suppressed call's trace is the span recording followed by
the runtime panic, not a completed capture. -/
theorem stacktrace_not_captured_on_deep_stack :
    levelPriority Error < loggerSuppressed.level
    ∧ Effect.stackCaptured ∉ loggerSuppressed.logError Error "boom" "failed" deepStack
    ∧ loggerSuppressed.logError Error "boom" "failed" deepStack
        = [Effect.spanAddError "boom", Effect.runtimePanicked] := by
  refine ⟨?_, ?_, ?_⟩ <;> decide

/-- C10 (amended): on the shared `logError` path the error is recorded on
the tracing span before the severity filter inside `log` is evaluated;
provided the stacktrace capture does not hit the 50-frame depth cap (C7),
the stacktrace is also captured before the filter, so a suppressed call
still performs exactly these two side effects while no bytes reach the
sink.  On a stack of 50 or more resolvable frames the capture's
out-of-range panic propagates before the filter instead (the span
recording still precedes it and no bytes are written either). -/
theorem logError_effects_before_filter (l : GoLogger) (level : String) (e : GoErr)
    (msg : String) (stack : List Frame) (ctx : GoContext) (sp : String) (st : String)
    (hctx : l.data.context = some ctx) (hsp : ctx.span = some sp)
    (hst : getStackTrace stack 1 = some st)
    (hsupp : levelPriority level < l.level) :
    l.logError level e msg stack = [Effect.spanAddError e, Effect.stackCaptured]
    ∧ sinkWriteCount (l.logError level e msg stack) = 0 := by
  have hlog : l.log level msg (some e)
      (.cons "stacktrace" (GoValue.goString st) .nil) = [] := by
    simp [GoLogger.log, hsupp]
  have hspan : spanEffects l e = [Effect.spanAddError e] := by
    simp [spanEffects, hctx, hsp]
  have heq : l.logError level e msg stack
      = [Effect.spanAddError e, Effect.stackCaptured] := by
    rw [GoLogger.logError, hst, hspan]
    simp [hlog]
  exact ⟨heq, by rw [heq]; rfl⟩

theorem logError_effects_before_filter_witness :
    loggerSuppressed.data.context = some ctxWitness
    ∧ getStackTrace ([] : List Frame) 1 = some "\n"
    ∧ levelPriority Error < loggerSuppressed.level
    ∧ loggerSuppressed.logError Error "boom" "failed" []
        = [Effect.spanAddError "boom", Effect.stackCaptured] :=
  ⟨rfl, by decide, by decide,
   (logError_effects_before_filter loggerSuppressed Error "boom" "failed" []
      ctxWitness "span-1" "\n" rfl rfl (by decide) (by decide)).1⟩

end Mon
